import Mathlib

/-!
Shallow embedding of the evaluation engine in `eval/eval.go` of the elvish
shell: the `Evaler` engine, `evalCtx` evaluation contexts, ports,
variable resolution, protected evaluation, and error pretty-printing.

Go reference semantics are modelled as follows: a `*Port` pointer is an
`Option Port` (with `none` for `nil`); a nil-pointer dereference or an
out-of-range slice index is a fault, surfaced as an outer `none` / `Option`
result of the modelled operation; maps and namespaces are association
lists queried with `List.lookup`; mutation of `ec.ports` (in `growPorts`)
is explicit state passing on the port sequence.
-/

/-- Values of the object language, as far as `eval.go` constructs them:
`String`, the `OK` value, `Bool`, lists (`NewList` + `appendStrings`), and
builtin-function values (from `builtinFns`, identified by their name). -/
inductive Value where
  | str : String → Value
  | ok : Value
  | bool : Bool → Value
  | list : List Value → Value
  | builtin : String → Value

/-- A variable binding: `newPtrVariable v` wraps a value cell, and
`newEnvVariable name` is a live binding backed by the process environment
variable `name` (from `ResolveVar`'s `env` branch). -/
inductive Variable where
  | ptr : Value → Variable
  | env : String → Variable

/-- `ns` is a namespace: `type ns map[string]Variable`, modelled as an
association list queried with `List.lookup`. -/
def ns := List (String × Variable)

/-- Namespace lookup, `s[name]`; a missing key is Go's nil `Variable`. -/
def nsLookup (s : ns) (name : String) : Option Variable := s.lookup name

/-- A `Port` as used by `eval.go`: a file handle, a value queue (`Chan`),
and the two `shouldClose` ownership flags (third and fourth positional
fields in `&Port{p.File, p.Chan, false, false}`). File and queue handles
are modelled by identity tokens; `none` is a nil handle. -/
structure Port where
  file : Option Nat
  chan : Option Nat
  shouldCloseFile : Bool
  shouldCloseChan : Bool
deriving DecidableEq, Repr

/-- A builtin function as registered by `NewEvaler`: exposes a `Name`. -/
structure BuiltinFn where
  name : String
deriving DecidableEq, Repr

/-- `FnPrefix` is the prefix for the variable names of functions. -/
def fnPfx : String := "&"

/-- The `Evaler`: global namespace, module registry `mod`, resolved
`searchPaths`, opaque store handle, and optional editor hook. -/
structure Evaler where
  global : ns
  mod : List (String × ns)
  searchPaths : List String
  store : Nat
  editor : Option Nat

/-- An `evalCtx`: the shared `Evaler`, diagnostic identity (`name`, `text`,
`context` phase label), the `local` and `up` namespaces, and the port
sequence (`[]*Port`, so entries are `Option Port`). Sharing by reference
in the Go code is shallow copying of the corresponding field here. -/
structure evalCtx where
  evaler : Evaler
  name : String
  text : String
  context : String
  localNs : ns
  up : ns
  ports : List (Option Port)

/-- `NewEvaler` builds the engine. `path` stands for `os.Getenv("PATH")`
(empty when the variable is unset), `pid` for `syscall.Getpid()`,
`builtinFns` for the builtin catalog, `st` for the store handle. -/
def NewEvaler (path : String) (pid : Nat) (builtinFns : List BuiltinFn)
    (st : Nat) : Evaler :=
  let searchPaths := if path ≠ "" then path.splitOn ":" else ["/bin"]
  let paths := Value.list (searchPaths.map Value.str)
  let global : ns :=
    [("pid", Variable.ptr (Value.str (toString pid))),
     ("ok", Variable.ptr Value.ok),
     ("true", Variable.ptr (Value.bool true)),
     ("false", Variable.ptr (Value.bool false)),
     ("paths", Variable.ptr paths)]
    ++ builtinFns.map (fun b => (fnPfx ++ b.name, Variable.ptr (Value.builtin b.name)))
  { global := global, mod := [], searchPaths := searchPaths,
    store := st, editor := none }

/-- `NewTopEvalCtx` creates a top-level `evalCtx`. -/
def NewTopEvalCtx (ev : Evaler) (name text : String)
    (ports : List (Option Port)) : evalCtx :=
  { evaler := ev, name := name, text := text, context := "top",
    localNs := ev.global, up := [], ports := ports }

/-- The port copy made by `fork`: `&Port{p.File, p.Chan, false, false}`. -/
def copyPort (p : Port) : Port :=
  { file := p.file, chan := p.chan,
    shouldCloseFile := false, shouldCloseChan := false }

/-- The port-copy loop of `fork`. Each entry `p` is dereferenced
(`p.File`, `p.Chan`), so a `nil` entry faults: the outer `none`. -/
def forkPorts : List (Option Port) → Option (List (Option Port))
  | [] => some []
  | none :: _ => none
  | some p :: rest => (forkPorts rest).map (fun ps => some (copyPort p) :: ps)

/-- `fork` returns a modified copy of `ec`: ports are copied deeply with
`shouldClose` flags reset, the context is replaced, all other fields are
copied shallowly. The result is `none` when the copy loop faults on a
`nil` port entry. -/
def evalCtx.fork (ec : evalCtx) (newContext : String) : Option evalCtx :=
  (forkPorts ec.ports).map fun newPorts =>
    { evaler := ec.evaler, name := ec.name, text := ec.text,
      context := newContext, localNs := ec.localNs, up := ec.up,
      ports := newPorts }

/-- `port` returns `ec.ports[i]`, or `nil` if `i >= len(ec.ports)`. The
index is Go's signed `int`; an index that escapes the `i >= len` guard but
is out of range (negative) faults: the outer `none`. -/
def evalCtx.port (ec : evalCtx) (i : Int) : Option (Option Port) :=
  if _h1 : (ec.ports.length : Int) ≤ i then some none
  else if _h2 : 0 ≤ i then
    some (ec.ports.get ⟨i.toNat, by omega⟩)
  else none

/-- `growPorts` makes the size of `ec.ports` at least `n`, adding nils if
necessary: `make([]*Port, n)` (all nil) followed by `copy` of the old
entries. Modelled as state passing on the port sequence. -/
def growPorts (ports : List (Option Port)) (n : Int) : List (Option Port) :=
  if (ports.length : Int) ≥ n then ports
  else ports ++ List.replicate (n.toNat - ports.length) none

/-- The contextual error value built by `errorf` through
`errutil.NewContextualError(fmt.Sprintf("%s (%s)", ec.name, ec.context),
"error", ec.text, p, format, args...)`. -/
structure ContextualError where
  header : String
  tag : String
  text : String
  pos : Int
  msg : String
deriving DecidableEq, Repr

/-- Modelled from the spec: the non-local exit discipline of §4.4/§4.5
(`errutil.Catch` / `throw` live outside `eval/eval.go`). Executing a
compiled operation against a context either completes normally or unwinds
with the thrown contextual error; the `Except` propagation is the
panic-style unwinding through every intermediate frame. -/
def Op := evalCtx → Except ContextualError Unit

/-- `errorf` stops evaluation immediately by raising a non-local exit
carrying the diagnostic header `"name (context)"`, the fixed `"error"`
tag, the source text, the byte position and the formatted message. -/
def evalCtx.errorf (ec : evalCtx) (p : Int) (msg : String) :
    Except ContextualError Unit :=
  Except.error
    { header := ec.name ++ " (" ++ ec.context ++ ")", tag := "error",
      text := ec.text, pos := p, msg := msg }

/-- `PEval` evaluates an op in a protected environment: the unique
recovery boundary (`defer errutil.Catch(&ex)`) converts a non-local exit
into a returned error; normal completion returns no error. -/
def evalCtx.PEval (ec : evalCtx) (op : Op) : Option ContextualError :=
  match op ec with
  | Except.ok _ => none
  | Except.error e => some e

/-- An operation that forks the context once per label (installing no
recovery boundary of its own at any level, as `fork` does not) and calls
`errorf` in the innermost context. The `none` branch of `fork` is
unreachable when every parent port is present. -/
def nestThenErrorf : List String → Int → String → Op
  | [], p, msg => fun ec => ec.errorf p msg
  | l :: rest, p, msg => fun ec =>
    match ec.fork l with
    | some child => nestThenErrorf rest p msg child
    | none => Except.ok ()

/-- `ResolveVar` resolves a variable against a context: the `env`
namespace is synthesized, a registered module is consulted exclusively,
then `local` and `up` in order, gated by the `may` predicate. A `nil`
result is `none`. -/
def evalCtx.ResolveVar (ec : evalCtx) (q name : String) : Option Variable :=
  if q = "env" then some (Variable.env name)
  else
    match ec.evaler.mod.lookup q with
    | some m => nsLookup m name
    | none =>
      let may : String → Bool := fun n => q = "" || q = n
      let fromUp : Option Variable :=
        if may "up" then nsLookup ec.up name else none
      if may "local" then
        match nsLookup ec.localNs name with
        | some v => some v
        | none => fromUp
      else fromUp

/-- The resolution precedence exactly as the spec words it (§4.6), to be
compared with `evalCtx.ResolveVar`: (1) `env` synthesizes a live binding,
always found; (2) a registered module is searched exclusively; (3) empty
or `local` qualifier searches the local namespace; (4) empty or `up`
qualifier searches the captured-enclosing namespace; otherwise absent.
First match (a clause whose condition holds and whose lookup succeeds,
clauses (1) and (2) counting as matches unconditionally) wins. -/
def resolveVarSpec (ec : evalCtx) (q name : String) : Option Variable :=
  if q = "env" then some (Variable.env name)
  else if (ec.evaler.mod.lookup q).isSome then
    nsLookup ((ec.evaler.mod.lookup q).getD []) name
  else if (q = "" || q = "local") && (nsLookup ec.localNs name).isSome then
    nsLookup ec.localNs name
  else if q = "" || q = "up" then
    nsLookup ec.up name
  else none

/-- The error taxonomy as `PprintError` discriminates it: `multiError`
(ordered sub-errors, each recursively an optional error, `nil` included),
`flow` control signals, and any other failure carrying its `Error()`
message. A `nil` error (success) is the `none` of the enclosing
`Option GoError`. -/
inductive GoError where
  | multi : List (Option GoError) → GoError
  | flow : String → GoError
  | other : String → GoError

mutual
/-- Rendering of one non-nil error, by kind. -/
def pprintGoError : GoError → String
  | GoError.multi cs => "(" ++ pprintMulti cs ++ ")"
  | GoError.flow s => "\x1b[33m" ++ s ++ "\x1b[m"
  | GoError.other s => "\x1b[31;1m" ++ s ++ "\x1b[m"

/-- The `multiError` loop: sub-errors in order, `" | "` between them. -/
def pprintMulti : List (Option GoError) → String
  | [] => ""
  | [c] => pprintOpt c
  | c :: rest => pprintOpt c ++ " | " ++ pprintMulti rest

/-- Rendering of a possibly-nil error; `nil` renders the `ok` marker. -/
def pprintOpt : Option GoError → String
  | none => "\x1b[32mok\x1b[m"
  | some e => pprintGoError e
end

/-- `PprintError` pretty prints an error (its output, concatenated). -/
def PprintError (e : Option GoError) : String := pprintOpt e

/-- A concrete port (stdin-like: a file handle the context owns). -/
def portA : Port :=
  { file := some 0, chan := none, shouldCloseFile := true, shouldCloseChan := false }

/-- A concrete port (relay-like: file and queue, queue owned). -/
def portB : Port :=
  { file := some 1, chan := some 10, shouldCloseFile := false, shouldCloseChan := true }

/-- A concrete context whose port sequence has a nil entry (as `growPorts`
leaves behind). -/
def ctxNil : evalCtx :=
  { evaler := NewEvaler "" 1 [] 0, name := "n", text := "t", context := "top",
    localNs := [], up := [], ports := [some portA, none] }

/-- A concrete context all of whose port entries are present. -/
def ctxAll : evalCtx :=
  { evaler := NewEvaler "/bin:/usr/bin" 42 [{ name := "put" }] 0,
    name := "interactive", text := "put 1", context := "top",
    localNs := [("x", Variable.ptr (Value.str "1"))],
    up := [("y", Variable.ptr (Value.str "2"))],
    ports := [some portA, some portB, some portA] }

/-- C5: any index at or beyond the length of the port sequence makes
`port` return absent (`nil`) without faulting, and any in-range index
returns the element stored at that position. -/
theorem port_infinite_tail (ec : evalCtx) (i : Int) :
    ((ec.ports.length : Int) ≤ i → ec.port i = some none) ∧
    (0 ≤ i → i < (ec.ports.length : Int) → ec.port i = ec.ports[i.toNat]?) := by
  constructor
  · intro h
    unfold evalCtx.port
    rw [dif_pos h]
  · intro h0 hlt
    unfold evalCtx.port
    rw [dif_neg (by omega), dif_pos h0, List.get_eq_getElem,
      List.getElem?_eq_getElem (by omega)]

/-- Witness for `port_infinite_tail` at a context with two ports. -/
theorem port_infinite_tail_w :
    ctxNil.port 3 = some none ∧ ctxNil.port 0 = ctxNil.ports[(0 : Int).toNat]? :=
  ⟨(port_infinite_tail ctxNil 3).1 (by decide),
   (port_infinite_tail ctxNil 0).2 (by decide) (by decide)⟩

/-- C10: the guard in `port` checks only the upper bound, so every
negative index escapes it and faults on the slice access. -/
theorem port_negative_index_faults (ec : evalCtx) (i : Int) (h : i < 0) :
    ec.port i = none := by
  unfold evalCtx.port
  rw [dif_neg (by omega), dif_neg (by omega)]

/-- Witness for `port_negative_index_faults` at index `-1`. -/
theorem port_negative_index_faults_w : ctxNil.port (-1) = none :=
  port_negative_index_faults ctxNil (-1) (by decide)

/-- `growPorts` is a no-op when the sequence is already long enough. -/
theorem growPorts_noop (ports : List (Option Port)) (n : Int)
    (h : (ports.length : Int) ≥ n) : growPorts ports n = ports := by
  unfold growPorts
  rw [if_pos h]

/-- `growPorts` never loses existing entries and never shrinks. -/
theorem growPorts_extends (ports : List (Option Port)) (n : Int) :
    (growPorts ports n).take ports.length = ports ∧
    (growPorts ports n).length ≥ ports.length := by
  unfold growPorts
  split
  · exact ⟨List.take_length ports, Nat.le_refl _⟩
  · exact ⟨List.take_left ports _, by simp⟩

/-- C6: `growPorts` is idempotent; a no-op when the sequence is already
long enough; otherwise a pure extension to length `n` that appends absent
entries and preserves every already-present entry and its flags; and two
successive calls (decreasing then increasing `n` included) never shrink
the sequence and never re-create already-present entries. -/
theorem growPorts_idempotent_monotone (ports : List (Option Port)) (n m k : Int) :
    growPorts (growPorts ports n) n = growPorts ports n ∧
    ((ports.length : Int) ≥ n → growPorts ports n = ports) ∧
    ((ports.length : Int) < n →
      ((growPorts ports n).length : Int) = n ∧
      (growPorts ports n).take ports.length = ports ∧
      (growPorts ports n).drop ports.length =
        List.replicate (n.toNat - ports.length) none) ∧
    ((growPorts (growPorts ports m) k).length ≥ (growPorts ports m).length ∧
     (growPorts ports m).length ≥ ports.length ∧
     (growPorts (growPorts ports m) k).take ports.length = ports) := by
  refine ⟨?_, ?_, ?_, ?_, ?_, ?_⟩
  · by_cases h : (ports.length : Int) ≥ n
    · rw [growPorts_noop ports n h]
      exact growPorts_noop ports n h
    · have hlen : ((growPorts ports n).length : Int) ≥ n := by
        unfold growPorts
        rw [if_neg h]
        simp only [List.length_append, List.length_replicate]
        omega
      exact growPorts_noop _ n hlen
  · exact growPorts_noop ports n
  · intro h
    refine ⟨?_, ?_, ?_⟩
    · unfold growPorts
      rw [if_neg (by omega)]
      simp only [List.length_append, List.length_replicate]
      omega
    · unfold growPorts
      rw [if_neg (by omega)]
      exact List.take_left ports _
    · unfold growPorts
      rw [if_neg (by omega)]
      exact List.drop_left ports _
  · exact (growPorts_extends _ _).2
  · exact (growPorts_extends _ _).2
  · have h1 := (growPorts_extends ports m).1
    have h2 := (growPorts_extends (growPorts ports m) k).1
    have hle := (growPorts_extends ports m).2
    have hsplit : (growPorts (growPorts ports m) k).take ports.length
        = ((growPorts (growPorts ports m) k).take
            (growPorts ports m).length).take ports.length := by
      rw [List.take_take, inf_eq_left.mpr hle]
    rw [hsplit, h2, h1]

/-- Witness for `growPorts_idempotent_monotone`: the no-op case and the
extension case, at a one-port sequence. -/
theorem growPorts_idempotent_monotone_w :
    growPorts [some portA] 1 = [some portA] ∧
    (growPorts [some portA] 3).take 1 = [some portA] :=
  ⟨(growPorts_idempotent_monotone [some portA] 1 0 0).2.1 (by decide),
   ((growPorts_idempotent_monotone [some portA] 3 0 0).2.2.1 (by decide)).2.1⟩

/-- The port-copy loop faults as soon as the sequence has a nil entry. -/
theorem forkPorts_isNone (ps : List (Option Port)) (h : none ∈ ps) :
    forkPorts ps = none := by
  induction ps with
  | nil => cases h
  | cons a rest ih =>
    cases a with
    | none => rfl
    | some p =>
      have hr : none ∈ rest := by
        cases h with
        | tail _ hm => exact hm
      unfold forkPorts
      rw [ih hr]
      rfl

/-- C9: `fork` faults (nil-pointer dereference in its port-copy loop) on
every context whose port sequence contains an absent entry, instead of
propagating the absent entry to the child. -/
theorem fork_faults_on_nil_port (ec : evalCtx) (label : String)
    (h : none ∈ ec.ports) : ec.fork label = none := by
  unfold evalCtx.fork
  rw [forkPorts_isNone ec.ports h]
  rfl

/-- Witness for `fork_faults_on_nil_port`: a context whose second port
entry is nil. -/
theorem fork_faults_on_nil_port_w : ctxNil.fork "sub" = none :=
  fork_faults_on_nil_port ctxNil "sub" (by decide)

/-- When every port is present the copy loop succeeds, copying each entry
with the `shouldClose` flags cleared. -/
theorem forkPorts_allSome (ps : List (Option Port)) (h : ∀ q ∈ ps, q.isSome) :
    forkPorts ps = some (ps.map (Option.map copyPort)) := by
  induction ps with
  | nil => rfl
  | cons a rest ih =>
    have ha := h a (List.mem_cons_self a rest)
    cases a with
    | none => simp at ha
    | some p =>
      unfold forkPorts
      rw [ih (fun q hq => h q (List.mem_cons_of_mem _ hq))]
      rfl

/-- C2: on a context with all ports present, `fork` shares the engine,
program name, source text and both namespaces with the parent, installs
the given phase label, and produces a port sequence of the same length
whose entries are structural copies (same file, same queue) with both
`shouldClose` flags false. -/
theorem fork_shares_and_copies (ec : evalCtx) (label : String)
    (h : ∀ q ∈ ec.ports, q.isSome) :
    ∃ child, ec.fork label = some child ∧
      child.evaler = ec.evaler ∧ child.name = ec.name ∧
      child.text = ec.text ∧ child.context = label ∧
      child.localNs = ec.localNs ∧ child.up = ec.up ∧
      child.ports.length = ec.ports.length ∧
      child.ports = ec.ports.map (Option.map (fun p =>
        { file := p.file, chan := p.chan,
          shouldCloseFile := false, shouldCloseChan := false })) := by
  unfold evalCtx.fork
  rw [forkPorts_allSome ec.ports h]
  exact ⟨_, rfl, rfl, rfl, rfl, rfl, rfl, rfl, by simp, rfl⟩

/-- Witness for `fork_shares_and_copies` at a three-port context. -/
theorem fork_shares_and_copies_w :
    ∃ child, ctxAll.fork "pipeline" = some child ∧
      child.evaler = ctxAll.evaler ∧ child.name = ctxAll.name ∧
      child.text = ctxAll.text ∧ child.context = "pipeline" ∧
      child.localNs = ctxAll.localNs ∧ child.up = ctxAll.up ∧
      child.ports.length = ctxAll.ports.length ∧
      child.ports = ctxAll.ports.map (Option.map (fun p =>
        { file := p.file, chan := p.chan,
          shouldCloseFile := false, shouldCloseChan := false })) :=
  fork_shares_and_copies ctxAll "pipeline" (by decide)

/-- The last phase label a fork chain installs, with a default. -/
theorem getLast?_getD_cons (l d : String) (rest : List String) :
    (l :: rest).getLast?.getD d = rest.getLast?.getD l := by
  cases rest with
  | nil => rfl
  | cons r rs =>
    rw [List.getLast?_cons_cons]
    have hs : (r :: rs).getLast?.isSome := by simp [List.getLast?_isSome]
    obtain ⟨x, hx⟩ := Option.isSome_iff_exists.mp hs
    rw [hx]
    rfl

/-- Copying all-present ports leaves all ports present. -/
theorem copied_ports_allSome (ps : List (Option Port))
    (h : ∀ q ∈ ps, q.isSome) :
    ∀ q ∈ ps.map (Option.map copyPort), q.isSome := by
  intro q hq
  obtain ⟨a, ha, rfl⟩ := List.mem_map.mp hq
  have := h a ha
  cases a with
  | none => simp at this
  | some p => simp

/-- Running a fork chain that ends in `errorf` unwinds with the
contextual error of the innermost context, through every frame. -/
theorem nestThenErrorf_run (labels : List String) :
    ∀ (ec : evalCtx) (p : Int) (msg : String), (∀ q ∈ ec.ports, q.isSome) →
    nestThenErrorf labels p msg ec = Except.error
      { header := ec.name ++ " (" ++ (labels.getLast?.getD ec.context) ++ ")",
        tag := "error", text := ec.text, pos := p, msg := msg } := by
  induction labels with
  | nil => intro ec p msg _; rfl
  | cons l rest ih =>
    intro ec p msg h
    have hfork : ec.fork l = some
        { evaler := ec.evaler, name := ec.name, text := ec.text, context := l,
          localNs := ec.localNs, up := ec.up,
          ports := ec.ports.map (Option.map copyPort) } := by
      unfold evalCtx.fork
      rw [forkPorts_allSome ec.ports h]
      rfl
    unfold nestThenErrorf
    rw [hfork]
    show nestThenErrorf rest p msg
        { evaler := ec.evaler, name := ec.name, text := ec.text, context := l,
          localNs := ec.localNs, up := ec.up,
          ports := ec.ports.map (Option.map copyPort) } =
      Except.error
        { header := ec.name ++ " (" ++ (l :: rest).getLast?.getD ec.context ++ ")",
          tag := "error", text := ec.text, pos := p, msg := msg }
    rw [ih _ p msg (copied_ports_allSome ec.ports h), getLast?_getD_cons]

/-- C1: `PEval` is the single recovery boundary: an operation that
completes normally makes it return no error, an operation that unwinds
with a non-local exit makes it return exactly that error, and a non-local
exit raised by `errorf` below any number of forked child contexts (which
install no boundary of their own) surfaces at the `PEval` call as the
contextual error carrying the program name, innermost phase label, source
text, byte position and message. -/
theorem PEval_single_recovery_boundary (ec : evalCtx) (op : Op)
    (labels : List String) (p : Int) (msg : String)
    (hports : ∀ q ∈ ec.ports, q.isSome) :
    (op ec = Except.ok () → ec.PEval op = none) ∧
    (∀ e, op ec = Except.error e → ec.PEval op = some e) ∧
    ec.PEval (nestThenErrorf labels p msg) =
      some { header := ec.name ++ " (" ++ (labels.getLast?.getD ec.context) ++ ")",
             tag := "error", text := ec.text, pos := p, msg := msg } := by
  refine ⟨?_, ?_, ?_⟩
  · intro h
    unfold evalCtx.PEval
    rw [h]
  · intro e h
    unfold evalCtx.PEval
    rw [h]
  · unfold evalCtx.PEval
    rw [nestThenErrorf_run labels ec p msg hports]

/-- Witness for `PEval_single_recovery_boundary`: an `errorf` raised
three forked contexts deep is returned at the top-level call. -/
theorem PEval_single_recovery_boundary_w :
    ctxAll.PEval (nestThenErrorf ["block", "pipe", "redir"] 7 "bad") =
      some { header := ctxAll.name ++ " (" ++
               ((["block", "pipe", "redir"] : List String).getLast?.getD
                 ctxAll.context) ++ ")",
             tag := "error", text := ctxAll.text, pos := 7, msg := "bad" } :=
  (PEval_single_recovery_boundary ctxAll (fun _ => Except.ok ())
    ["block", "pipe", "redir"] 7 "bad" (by decide)).2.2

/-- C3: `ResolveVar` implements exactly the first-match-wins precedence
the spec prescribes (`env` synthesis, exclusive module lookup, then local,
then captured-enclosing, otherwise absent), and an unqualified lookup
tries the local namespace first and the captured-enclosing one second. -/
theorem ResolveVar_precedence (ec : evalCtx) (q name : String) :
    ec.ResolveVar q name = resolveVarSpec ec q name ∧
    (ec.evaler.mod.lookup "" = none →
      ec.ResolveVar "" name = (nsLookup ec.localNs name).or (nsLookup ec.up name)) := by
  constructor
  · unfold evalCtx.ResolveVar resolveVarSpec
    by_cases hq : q = "env"
    · simp [hq]
    · rw [if_neg hq, if_neg hq]
      cases hmod : ec.evaler.mod.lookup q with
      | some m => simp [hmod]
      | none =>
        simp only [hmod, Option.isSome_none, Bool.false_eq_true, if_false]
        by_cases h0 : q = ""
        · subst h0
          cases hloc : nsLookup ec.localNs name <;> simp [hloc]
        · by_cases hl : q = "local"
          · subst hl
            cases hloc : nsLookup ec.localNs name <;> simp [hloc]
          · by_cases hu : q = "up"
            · subst hu
              simp
            · simp [h0, hl, hu]
  · intro hm
    unfold evalCtx.ResolveVar
    rw [if_neg (by decide), hm]
    cases hloc : nsLookup ec.localNs name <;> simp [hloc, Option.or]

/-- Witness for `ResolveVar_precedence`: an unqualified lookup in a
context with no module registered under the empty name falls through the
local namespace to the captured-enclosing one. -/
theorem ResolveVar_precedence_w :
    ctxAll.ResolveVar "" "y" =
      (nsLookup ctxAll.localNs "y").or (nsLookup ctxAll.up "y") :=
  (ResolveVar_precedence ctxAll "" "y").2 rfl

/-- A function-prefixed name starts with the prefix character. -/
theorem fnPfx_append_head (s : String) : (fnPfx ++ s).data.head? = some '&' := by
  rw [String.data_append]
  rfl

/-- A function-prefixed name differs from any name that does not start
with the prefix character. -/
theorem fnPfx_append_ne (s k : String) (hk : k.data.head? ≠ some '&') :
    fnPfx ++ s ≠ k :=
  fun h => hk (h ▸ fnPfx_append_head s)

/-- The function prefix cancels on the left. -/
theorem fnPfx_append_inj {s t : String} (h : fnPfx ++ s = fnPfx ++ t) :
    s = t := by
  have hd := congrArg String.data h
  rw [String.data_append, String.data_append] at hd
  have : s.data = t.data := by
    have h2 : '&' :: s.data = '&' :: t.data := hd
    injection h2
  exact String.ext this

/-- A function-prefixed name misses all five data entries of the initial
global namespace. -/
theorem lookup_base_fnPfx (s : String) (v1 v2 v3 v4 v5 : Variable) :
    List.lookup (fnPfx ++ s)
      [("pid", v1), ("ok", v2), ("true", v3), ("false", v4), ("paths", v5)]
      = none := by
  have h1 := beq_eq_false_iff_ne.mpr (fnPfx_append_ne s "pid" (by decide))
  have h2 := beq_eq_false_iff_ne.mpr (fnPfx_append_ne s "ok" (by decide))
  have h3 := beq_eq_false_iff_ne.mpr (fnPfx_append_ne s "true" (by decide))
  have h4 := beq_eq_false_iff_ne.mpr (fnPfx_append_ne s "false" (by decide))
  have h5 := beq_eq_false_iff_ne.mpr (fnPfx_append_ne s "paths" (by decide))
  simp [List.lookup, h1, h2, h3, h4, h5]

/-- Lookup of a registered builtin among the builtin bindings. -/
theorem lookup_builtins (bs : List BuiltinFn) (b : BuiltinFn) (hb : b ∈ bs) :
    List.lookup (fnPfx ++ b.name)
      (bs.map (fun c => (fnPfx ++ c.name, Variable.ptr (Value.builtin c.name))))
      = some (Variable.ptr (Value.builtin b.name)) := by
  induction bs with
  | nil => cases hb
  | cons c rest ih =>
    by_cases h : fnPfx ++ b.name = fnPfx ++ c.name
    · have hn : b.name = c.name := fnPfx_append_inj h
      simp [List.lookup, h, hn]
    · have hbb : ((fnPfx ++ b.name) == (fnPfx ++ c.name)) = false :=
        beq_eq_false_iff_ne.mpr h
      have hbr : b ∈ rest := by
        cases hb with
        | head => exact absurd rfl h
        | tail _ hm => exact hm
      simp only [List.map_cons, List.lookup, hbb]
      exact ih hbr

/-- A key hits the builtin bindings exactly when it is the prefixed name
of a registered builtin. -/
theorem lookup_builtins_isSome (bs : List BuiltinFn) (k : String) :
    (List.lookup k
      (bs.map (fun c => (fnPfx ++ c.name, Variable.ptr (Value.builtin c.name))))).isSome
      ↔ ∃ b ∈ bs, k = fnPfx ++ b.name := by
  induction bs with
  | nil => simp
  | cons c rest ih =>
    by_cases h : k = fnPfx ++ c.name
    · simp [List.lookup, h]
    · have hbb : (k == (fnPfx ++ c.name)) = false := beq_eq_false_iff_ne.mpr h
      simp only [List.map_cons, List.lookup, hbb, ih]
      constructor
      · intro ⟨b, hb, he⟩
        exact ⟨b, List.mem_cons_of_mem _ hb, he⟩
      · intro ⟨b, hb, he⟩
        cases hb with
        | head => exact absurd he h
        | tail _ hm => exact ⟨b, hm, he⟩

/-- A key hits the five data entries exactly when it is one of their
names. -/
theorem lookup_base_isSome (k : String) (v1 v2 v3 v4 v5 : Variable) :
    (List.lookup k
      [("pid", v1), ("ok", v2), ("true", v3), ("false", v4), ("paths", v5)]).isSome
      ↔ k ∈ ["pid", "ok", "true", "false", "paths"] := by
  by_cases h1 : k = "pid"
  · simp [List.lookup, h1]
  · by_cases h2 : k = "ok"
    · simp [List.lookup, h2]
    · by_cases h3 : k = "true"
      · simp [List.lookup, h3]
      · by_cases h4 : k = "false"
        · simp [List.lookup, h4]
        · by_cases h5 : k = "paths"
          · simp [List.lookup, h5]
          · simp [List.lookup, h1, h2, h3, h4, h5,
              beq_eq_false_iff_ne.mpr h1, beq_eq_false_iff_ne.mpr h2,
              beq_eq_false_iff_ne.mpr h3, beq_eq_false_iff_ne.mpr h4,
              beq_eq_false_iff_ne.mpr h5]

/-- C7: `NewEvaler` (a total function) resolves the search path from the
PATH variable, defaulting to the single-entry fallback when it is unset
or empty, and the initial global namespace binds exactly `pid`, `ok`,
`true`, `false`, `paths` (to the stated values) plus one prefixed binding
per builtin function. -/
theorem NewEvaler_total_initial_state (path : String) (pid : Nat)
    (bs : List BuiltinFn) (st : Nat) :
    (NewEvaler path pid bs st).searchPaths =
      (if path = "" then ["/bin"] else path.splitOn ":") ∧
    nsLookup (NewEvaler path pid bs st).global "pid" =
      some (Variable.ptr (Value.str (toString pid))) ∧
    nsLookup (NewEvaler path pid bs st).global "ok" =
      some (Variable.ptr Value.ok) ∧
    nsLookup (NewEvaler path pid bs st).global "true" =
      some (Variable.ptr (Value.bool true)) ∧
    nsLookup (NewEvaler path pid bs st).global "false" =
      some (Variable.ptr (Value.bool false)) ∧
    nsLookup (NewEvaler path pid bs st).global "paths" =
      some (Variable.ptr (Value.list
        ((NewEvaler path pid bs st).searchPaths.map Value.str))) ∧
    (∀ b ∈ bs, nsLookup (NewEvaler path pid bs st).global (fnPfx ++ b.name) =
      some (Variable.ptr (Value.builtin b.name))) ∧
    (∀ k, (nsLookup (NewEvaler path pid bs st).global k).isSome ↔
      (k ∈ ["pid", "ok", "true", "false", "paths"] ∨
        ∃ b ∈ bs, k = fnPfx ++ b.name)) := by
  refine ⟨?_, ?_, ?_, ?_, ?_, ?_, ?_, ?_⟩
  · by_cases hp : path = "" <;> simp [NewEvaler, hp]
  · simp [NewEvaler, nsLookup, List.lookup_append, List.lookup]
  · simp [NewEvaler, nsLookup, List.lookup_append, List.lookup]
  · simp [NewEvaler, nsLookup, List.lookup_append, List.lookup]
  · simp [NewEvaler, nsLookup, List.lookup_append, List.lookup]
  · simp [NewEvaler, nsLookup, List.lookup_append, List.lookup]
  · intro b hb
    show List.lookup (fnPfx ++ b.name) (_ ++ _) = _
    rw [List.lookup_append, lookup_base_fnPfx, Option.none_or]
    exact lookup_builtins bs b hb
  · intro k
    show (List.lookup k (_ ++ _)).isSome ↔ _
    rw [List.lookup_append, Option.isSome_or, Bool.or_eq_true,
      lookup_base_isSome, lookup_builtins_isSome]

/-- Witness for `NewEvaler_total_initial_state`: the builtin `put` is
bound under its prefixed name. -/
theorem NewEvaler_total_initial_state_w :
    nsLookup (NewEvaler "/bin:/sbin" 7 [{ name := "put" }] 0).global
        (fnPfx ++ BuiltinFn.name { name := "put" }) =
      some (Variable.ptr (Value.builtin (BuiltinFn.name { name := "put" }))) :=
  (NewEvaler_total_initial_state "/bin:/sbin" 7 [{ name := "put" }] 0).2.2.2.2.2.2.1
    { name := "put" } (by decide)

/-- C8: `PprintError` (a pure rendering, leaving the error untouched)
renders by kind: success as the fixed green `ok` marker; an aggregate of
two failures as `(render(sub1) | render(sub2))` with sub-error order
preserved; a flow-control signal with the non-fatal yellow treatment; any
other failure with the fatal bold-red treatment; and the last two
treatments are distinct for all messages. -/
theorem PprintError_by_kind :
    PprintError none = "\x1b[32mok\x1b[m" ∧
    (∀ e1 e2 : Option GoError, PprintError (some (GoError.multi [e1, e2])) =
      "(" ++ PprintError e1 ++ " | " ++ PprintError e2 ++ ")") ∧
    (∀ s, PprintError (some (GoError.flow s)) = "\x1b[33m" ++ s ++ "\x1b[m") ∧
    (∀ s, PprintError (some (GoError.other s)) = "\x1b[31;1m" ++ s ++ "\x1b[m") ∧
    (∀ s t, PprintError (some (GoError.flow s)) ≠
      PprintError (some (GoError.other t))) := by
  refine ⟨rfl, ?_, fun s => rfl, fun s => rfl, ?_⟩
  · intro e1 e2
    simp [PprintError, pprintOpt, pprintGoError, pprintMulti, String.append_assoc]
  · intro s t h
    have hL : ("\x1b[33m" ++ s ++ "\x1b[m").data.take 4
        = ['\x1b', '[', '3', '3'] := by
      rw [String.data_append, String.data_append, List.append_assoc,
        List.take_append_of_le_length (by decide)]
      rfl
    have hR : ("\x1b[31;1m" ++ t ++ "\x1b[m").data.take 4
        = ['\x1b', '[', '3', '1'] := by
      rw [String.data_append, String.data_append, List.append_assoc,
        List.take_append_of_le_length (by decide)]
      rfl
    have h4 : ("\x1b[33m" ++ s ++ "\x1b[m").data.take 4
        = ("\x1b[31;1m" ++ t ++ "\x1b[m").data.take 4 :=
      congrArg (fun u : String => u.data.take 4) h
    rw [hL, hR] at h4
    exact absurd h4 (by decide)

/-- Witness for `PprintError_by_kind`: a two-failure aggregate renders as
the parenthesized, delimiter-separated recursion. -/
theorem PprintError_by_kind_w :
    PprintError (some (GoError.multi
        [some (GoError.other "a"), some (GoError.other "b")])) =
      "(" ++ PprintError (some (GoError.other "a")) ++ " | " ++
        PprintError (some (GoError.other "b")) ++ ")" :=
  PprintError_by_kind.2.1 (some (GoError.other "a")) (some (GoError.other "b"))
